import Mathlib

/-!
Verification of the merge-orchestration core of `git-gtool`.

The definitions below are a shallow embedding of:
* `internal/model` — the paginated list generator (`PagedListGenerator`);
* `internal/renovatepr/renovatepr.go` — the merge orchestration loop
  (`MergePRs`, `mergeStep`, `checkStatusChecks`, `chooseActivePr`,
  `approvePr`, `mergePr`).

Remote calls are modelled by explicit function parameters; machine state is
threaded explicitly.  Go `error` values are modelled as `Option`/`Except`
values over an abstract error type.
-/

namespace GitGtool

/-! ## Paginated list generator (`internal/model` generator file)

The Go struct `PagedListGenerator` holds a `Retrieve` callback plus the
mutable cursor fields `index`, `nextPage`, `items`, `endOfList` and
`lastPage`.  Here the callback is a parameter `fetch : Nat → Except ε
(FetchResult α)` taking the requested page number (`opts.Page`), and the
mutable fields form `GenState`.  The page-metadata value (`g.page`) is
never consulted by the callers we verify, so it is not modelled. -/

/-- Result of one `Retrieve` call: the page's items and the response's
`NextPage` field, which is `0` on the last page. -/
structure FetchResult (α : Type) where
  items : List α
  nextPage : Nat
  deriving Repr, DecidableEq

/-- Mutable cursor fields of `PagedListGenerator`. -/
structure GenState (α : Type) where
  index : Nat
  nextPage : Nat
  items : List α
  endOfList : Bool
  lastPage : Bool
  deriving Repr, DecidableEq

variable {α : Type} {ε : Type}

/-- The Go zero value of the `PagedListGenerator` cursor fields. -/
def initGen : GenState α :=
  { index := 0, nextPage := 0, items := [], endOfList := false, lastPage := false }

/-- Errors surfaced by `Next`: the `EndOfList` sentinel, a propagated fetch
error, or a runtime index-out-of-range panic (`g.items[thisIndex]`). -/
inductive GenErr (ε : Type) where
  | endOfList
  | fetchErr (e : ε)
  | indexPanic
  deriving Repr, DecidableEq

/-- `getNextPage`: fetches the next page when the current one is exhausted
and more pages remain.  On a fetch error the Go method has already
overwritten `g.index` (to 0) and `g.items` (to the `nil` slice returned by
`Retrieve`) before returning the error; the mutated state is returned
alongside the error. -/
def getNextPage (fetch : Nat → Except ε (FetchResult α)) (g : GenState α) :
    Option ε × GenState α :=
  if !g.lastPage && decide (g.items.length ≤ g.index) then
    match fetch g.nextPage with
    | .error e => (some e, { g with index := 0, items := [] })
    | .ok r =>
        let lastPage := decide (r.nextPage = 0)
        (none, { g with
            index := 0
            items := r.items
            lastPage := lastPage
            nextPage := r.nextPage
            endOfList := decide (r.items.length ≤ 0) && lastPage })
  else (none, g)

/-- `HasNext`: loads the next page if needed (discarding any fetch error,
as the Go method does) and reports `!g.endOfList`. -/
def hasNext (fetch : Nat → Except ε (FetchResult α)) (g : GenState α) :
    Bool × GenState α :=
  if !g.endOfList then
    let (_, g') := getNextPage fetch g
    (!g'.endOfList, g')
  else (!g.endOfList, g)

/-- `Next`: returns the next item, `EndOfList` at exhaustion, or a
propagated fetch error.  The final slice access `g.items[thisIndex]` is
modelled by `List.get?`, with `GenErr.indexPanic` standing for the Go
runtime panic when the index is out of range. -/
def next (fetch : Nat → Except ε (FetchResult α)) (g : GenState α) :
    Except (GenErr ε) α × GenState α :=
  if g.endOfList then (.error .endOfList, g)
  else
    match getNextPage fetch g with
    | (some e, g') => (.error (.fetchErr e), g')
    | (none, g') =>
        if decide (g'.items.length ≤ g'.index) && g'.lastPage then
          (.error .endOfList, { g' with endOfList := true })
        else
          let thisIndex := g'.index
          let g'' : GenState α := { g' with
              index := g'.index + 1
              endOfList := decide (g'.items.length ≤ g'.index + 1) && g'.lastPage }
          match g'.items.get? thisIndex with
          | some a => (.ok a, g'')
          | none => (.error .indexPanic, g'')

/-- One client call against a generator. -/
inductive GenOp where
  | opHasNext
  | opNext
  deriving Repr, DecidableEq

deriving instance DecidableEq for Except

/-- The observable output of one client call. -/
inductive GenOut (α ε : Type) where
  | outHas (b : Bool)
  | outNext (r : Except (GenErr ε) α)
  deriving Repr, DecidableEq

/-- Runs a sequence of `HasNext`/`Next` calls against a generator,
collecting their outputs. -/
def runGen (fetch : Nat → Except ε (FetchResult α)) :
    List GenOp → GenState α → List (GenOut α ε)
  | [], _ => []
  | .opHasNext :: ops, g =>
      let (b, g') := hasNext fetch g
      .outHas b :: runGen fetch ops g'
  | .opNext :: ops, g =>
      let (r, g') := next fetch g
      .outNext r :: runGen fetch ops g'

/-- A fetch function serving a fixed list of pages: page `n` (the generator
asks for page `0` first and then echoes each response's `NextPage` back)
holds `pages[n]`, and the response's `NextPage` is `n+1`, or `0` on the
last page. -/
def pagesFetch (pages : List (List α)) : Nat → Except Unit (FetchResult α) :=
  fun n => .ok ⟨pages.getD n [], if n + 1 < pages.length then n + 1 else 0⟩

/-- Modelled from the spec: the intended observable behaviour of a
generator whose remaining items are `rem` — `hasNext` reports whether items
remain, `next` yields the items in order and then fails with `EndOfList`
forever. -/
def specTrace : List GenOp → List α → List (GenOut α Unit)
  | [], _ => []
  | .opHasNext :: ops, rem => .outHas (!rem.isEmpty) :: specTrace ops rem
  | .opNext :: ops, [] => .outNext (.error .endOfList) :: specTrace ops []
  | .opNext :: ops, a :: rs => .outNext (.ok a) :: specTrace ops rs

/-- Hypothesis for the page-boundary theorem: every page of the split is
nonempty (a split of a sequence across pages puts at least one item on
each page). -/
def PagesNonempty (pages : List (List α)) : Prop := ∀ pg ∈ pages, pg ≠ []

/-- Invariant tying a reachable generator state to the remaining items
`rem`: either the state is untouched, or `p` pages have been fetched and
the cursor sits inside page `p` (1-based). -/
def GenInv (pages : List (List α)) (g : GenState α) (rem : List α) : Prop :=
  (g = initGen ∧ rem = pages.flatten) ∨
  ∃ p, 1 ≤ p ∧ p ≤ max 1 pages.length ∧
    g.items = pages.getD (p - 1) [] ∧
    g.index ≤ g.items.length ∧
    g.nextPage = (if p < pages.length then p else 0) ∧
    g.lastPage = decide (pages.length ≤ p) ∧
    g.endOfList = (decide (g.items.length ≤ g.index) && g.lastPage) ∧
    rem = g.items.drop g.index ++ (pages.drop p).flatten

/-- Strengthened invariant holding right after `getNextPage` has run: in
addition to `GenInv`'s fetched branch, the cursor is either on the last
page or strictly inside the current page's items. -/
def MidInv (pages : List (List α)) (g : GenState α) (rem : List α) : Prop :=
  ∃ p, 1 ≤ p ∧ p ≤ max 1 pages.length ∧
    g.items = pages.getD (p - 1) [] ∧
    g.index ≤ g.items.length ∧
    g.nextPage = (if p < pages.length then p else 0) ∧
    g.lastPage = decide (pages.length ≤ p) ∧
    g.endOfList = (decide (g.items.length ≤ g.index) && g.lastPage) ∧
    rem = g.items.drop g.index ++ (pages.drop p).flatten ∧
    (g.lastPage = true ∨ g.index < g.items.length)

lemma midInv_genInv {pages : List (List α)} {g : GenState α} {rem : List α}
    (h : MidInv pages g rem) : GenInv pages g rem := by
  obtain ⟨p, h1, h2, h3, h4, h5, h6, h7, h8, _⟩ := h
  exact Or.inr ⟨p, h1, h2, h3, h4, h5, h6, h7, h8⟩

lemma nextPageFlag (n P : Nat) :
    decide ((if n + 1 < P then n + 1 else 0) = 0) = decide (P ≤ n + 1) := by
  by_cases h : n + 1 < P
  · rw [if_pos h, decide_eq_false (by omega : ¬n + 1 = 0),
      decide_eq_false (by omega : ¬P ≤ n + 1)]
  · rw [if_neg h, decide_eq_true (by omega : P ≤ n + 1)]
    rfl

lemma getD_eq_getElem {l : List α} {n : Nat} {d : α} (h : n < l.length) :
    l.getD n d = l[n] := by
  simp [List.getD_eq_getElem?_getD, List.getElem?_eq_getElem h]

/-- `pagesFetch` never fails. -/
lemma getNextPage_pagesFetch_fst (pages : List (List α)) (g : GenState α) :
    (getNextPage (pagesFetch pages) g).1 = none := by
  unfold getNextPage pagesFetch
  split <;> rfl

/-- Unfolding of `getNextPage` for the `pagesFetch` environment. -/
lemma getNextPage_pagesFetch (pages : List (List α)) (g : GenState α) :
    getNextPage (pagesFetch pages) g =
      if !g.lastPage && decide (g.items.length ≤ g.index) then
        (none, { g with
          index := 0
          items := pages.getD g.nextPage []
          lastPage := decide ((if g.nextPage + 1 < pages.length then g.nextPage + 1 else 0) = 0)
          nextPage := if g.nextPage + 1 < pages.length then g.nextPage + 1 else 0
          endOfList := decide ((pages.getD g.nextPage []).length ≤ 0) &&
            decide ((if g.nextPage + 1 < pages.length then g.nextPage + 1 else 0) = 0) })
      else (none, g) := by
  unfold getNextPage pagesFetch
  split <;> rfl

/-- The state produced by `getNextPage` when a fetch takes place. -/
lemma getNextPage_snd_fetch (pages : List (List α)) (g : GenState α)
    (h : (!g.lastPage && decide (g.items.length ≤ g.index)) = true) :
    (getNextPage (pagesFetch pages) g).2 = { g with
      index := 0
      items := pages.getD g.nextPage []
      lastPage := decide ((if g.nextPage + 1 < pages.length then g.nextPage + 1 else 0) = 0)
      nextPage := if g.nextPage + 1 < pages.length then g.nextPage + 1 else 0
      endOfList := decide ((pages.getD g.nextPage []).length ≤ 0) &&
        decide ((if g.nextPage + 1 < pages.length then g.nextPage + 1 else 0) = 0) } := by
  rw [getNextPage_pagesFetch, if_pos h]

/-- The state is untouched by `getNextPage` when no fetch is needed. -/
lemma getNextPage_snd_skip (pages : List (List α)) (g : GenState α)
    (h : (!g.lastPage && decide (g.items.length ≤ g.index)) = false) :
    (getNextPage (pagesFetch pages) g).2 = g := by
  rw [getNextPage_pagesFetch, if_neg (by rw [h]; exact Bool.false_ne_true)]

/-- Running `getNextPage` from a non-exhausted invariant state lands in a
`MidInv` state with the same remaining items. -/
lemma getNextPage_mid (pages : List (List α)) (g : GenState α) (rem : List α)
    (hne : PagesNonempty pages) (hinv : GenInv pages g rem)
    (hend : g.endOfList = false) :
    MidInv pages ((getNextPage (pagesFetch pages) g).2) rem := by
  rcases hinv with ⟨hg, hrem⟩ | ⟨p, hp1, hp2, hitems, hidx, hnp, hlp, heol, hrem⟩
  · -- initial state: the first fetch loads page 0
    subst hg
    rw [getNextPage_snd_fetch pages initGen rfl]
    simp only [show (initGen : GenState α).nextPage = 0 from rfl, Nat.zero_add]
    refine ⟨1, Nat.le_refl 1, Nat.le_max_left 1 _, rfl, Nat.zero_le _, rfl,
      nextPageFlag 0 pages.length, rfl, ?_, ?_⟩
    · show rem = (pages.getD 0 []).drop 0 ++ (pages.drop 1).flatten
      cases pages with
      | nil => simpa using hrem
      | cons q t => simpa using hrem
    · cases pages with
      | nil => exact Or.inl (by simp)
      | cons q t =>
          refine Or.inr ?_
          show 0 < ((q :: t).getD 0 []).length
          have hq : q ≠ [] := hne q (List.mem_cons_self q t)
          simpa using List.length_pos.mpr hq
  · -- a page is already loaded
    by_cases hc : (!g.lastPage && decide (g.items.length ≤ g.index)) = true
    · -- the current page is exhausted and is not the last: fetch page p
      rw [getNextPage_snd_fetch pages g hc]
      simp only [Bool.and_eq_true, Bool.not_eq_true', decide_eq_true_eq] at hc
      obtain ⟨hlpf, hlen⟩ := hc
      have hplt : p < pages.length := by
        rw [hlpf] at hlp
        have := of_decide_eq_false hlp.symm
        omega
      have hnpp : g.nextPage = p := by rw [hnp, if_pos hplt]
      have hgetp : pages.getD p [] = pages[p] := getD_eq_getElem hplt
      have hpgne : pages[p] ≠ [] := hne _ (List.getElem_mem hplt)
      refine ⟨p + 1, Nat.le_add_left 1 p, by omega, ?_, Nat.zero_le _, ?_, ?_, rfl, ?_, ?_⟩
      · show pages.getD g.nextPage [] = pages.getD (p + 1 - 1) []
        rw [hnpp, Nat.add_sub_cancel]
      · show (if g.nextPage + 1 < pages.length then g.nextPage + 1 else 0) =
          if p + 1 < pages.length then p + 1 else 0
        rw [hnpp]
      · show decide ((if g.nextPage + 1 < pages.length then g.nextPage + 1 else 0) = 0) =
          decide (pages.length ≤ p + 1)
        rw [hnpp, nextPageFlag]
      · -- remaining items: the old page contributes nothing, page p is next
        show rem = (pages.getD g.nextPage []).drop 0 ++ (pages.drop (p + 1)).flatten
        have hdropn : g.items.drop g.index = [] := List.drop_eq_nil_iff.mpr hlen
        have hdropp : pages.drop p = pages[p] :: pages.drop (p + 1) :=
          List.drop_eq_getElem_cons hplt
        rw [hrem, hdropn, List.nil_append, hdropp, List.flatten_cons, hnpp, hgetp,
          List.drop_zero]
      · refine Or.inr ?_
        show 0 < (pages.getD g.nextPage []).length
        rw [hnpp, hgetp]
        exact List.length_pos.mpr hpgne
    · -- no fetch needed: the state is unchanged
      have hcf : (!g.lastPage && decide (g.items.length ≤ g.index)) = false :=
        eq_false_of_ne_true hc
      rw [getNextPage_snd_skip pages g hcf]
      refine ⟨p, hp1, hp2, hitems, hidx, hnp, hlp, heol, hrem, ?_⟩
      cases hlpb : g.lastPage with
      | true => exact Or.inl rfl
      | false =>
          rw [hlpb] at hcf
          simp only [Bool.not_false, Bool.true_and, decide_eq_false_iff_not, not_le] at hcf
          exact Or.inr hcf

/-- In a `MidInv` state, the `endOfList` flag is set exactly when no items
remain. -/
lemma midInv_endOfList (pages : List (List α)) (g : GenState α) (rem : List α)
    (hne : PagesNonempty pages) (hmid : MidInv pages g rem) :
    g.endOfList = true ↔ rem = [] := by
  obtain ⟨p, hp1, hp2, hitems, hidx, hnp, hlp, heol, hrem, hdisj⟩ := hmid
  constructor
  · intro h
    rw [h] at heol
    have hand := heol.symm
    rw [Bool.and_eq_true, decide_eq_true_eq] at hand
    obtain ⟨hlen, hlpt⟩ := hand
    have hPp : pages.length ≤ p := by
      rw [hlpt] at hlp
      exact of_decide_eq_true hlp.symm
    rw [hrem, List.drop_eq_nil_iff.mpr hlen, List.drop_eq_nil_iff.mpr hPp]
    rfl
  · intro h
    rw [h] at hrem
    have hboth := List.append_eq_nil.mp hrem.symm
    have hlen : g.items.length ≤ g.index := List.drop_eq_nil_iff.mp hboth.1
    have hlpt : g.lastPage = true := by
      cases hlpb : g.lastPage with
      | true => rfl
      | false =>
          exfalso
          have hplt : p < pages.length := by
            rw [hlpb] at hlp
            have := of_decide_eq_false hlp.symm
            omega
          have hdropp : pages.drop p = pages[p] :: pages.drop (p + 1) :=
            List.drop_eq_getElem_cons hplt
          have : (pages.drop p).flatten = [] := hboth.2
          rw [hdropp, List.flatten_cons] at this
          have := List.append_eq_nil.mp this
          exact hne _ (List.getElem_mem hplt) this.1
    rw [heol, hlpt, decide_eq_true hlen]
    rfl

/-- In any invariant state with the `endOfList` flag set, no items remain. -/
lemma genInv_endOfList (pages : List (List α)) (g : GenState α) (rem : List α)
    (hinv : GenInv pages g rem) (h : g.endOfList = true) : rem = [] := by
  rcases hinv with ⟨hg, _⟩ | ⟨p, hp1, hp2, hitems, hidx, hnp, hlp, heol, hrem⟩
  · rw [hg] at h
    exact absurd h (by simp [initGen])
  · rw [h] at heol
    have hand := heol.symm
    rw [Bool.and_eq_true, decide_eq_true_eq] at hand
    obtain ⟨hlen, hlpt⟩ := hand
    have hPp : pages.length ≤ p := by
      rw [hlpt] at hlp
      exact of_decide_eq_true hlp.symm
    rw [hrem, List.drop_eq_nil_iff.mpr hlen, List.drop_eq_nil_iff.mpr hPp]
    rfl

/-- Simulation of `HasNext`: it reports whether items remain and preserves
the invariant. -/
lemma hasNext_sim (pages : List (List α)) (g : GenState α) (rem : List α)
    (hne : PagesNonempty pages) (hinv : GenInv pages g rem) :
    (hasNext (pagesFetch pages) g).1 = !rem.isEmpty ∧
      GenInv pages (hasNext (pagesFetch pages) g).2 rem := by
  cases hend : g.endOfList with
  | true =>
      have hrem : rem = [] := genInv_endOfList pages g rem hinv hend
      have hh : hasNext (pagesFetch pages) g = (!g.endOfList, g) := by
        unfold hasNext
        rw [hend]
        rfl
      rw [hh, hrem, hend]
      exact ⟨rfl, by rw [hrem] at hinv; exact hinv⟩
  | false =>
      have hmid := getNextPage_mid pages g rem hne hinv hend
      have hh : hasNext (pagesFetch pages) g =
          (!(getNextPage (pagesFetch pages) g).2.endOfList,
            (getNextPage (pagesFetch pages) g).2) := by
        unfold hasNext
        rw [hend]
        simp only [Bool.not_false, if_true]
      rw [hh]
      refine ⟨?_, midInv_genInv hmid⟩
      have hiff := midInv_endOfList pages _ rem hne hmid
      cases rem with
      | nil => simp [hiff.mpr rfl]
      | cons a rs =>
          have : (getNextPage (pagesFetch pages) g).2.endOfList = false := by
            cases hb : (getNextPage (pagesFetch pages) g).2.endOfList with
            | false => rfl
            | true => exact absurd (hiff.mp hb) (by simp)
          simp [this]

/-- Simulation of `Next`: it yields the head of the remaining items, or the
`EndOfList` sentinel when none remain, preserving the invariant. -/
lemma next_sim (pages : List (List α)) (g : GenState α) (rem : List α)
    (hne : PagesNonempty pages) (hinv : GenInv pages g rem) :
    (rem = [] → (next (pagesFetch pages) g).1 = .error .endOfList ∧
      GenInv pages (next (pagesFetch pages) g).2 []) ∧
    (∀ a rs, rem = a :: rs → (next (pagesFetch pages) g).1 = .ok a ∧
      GenInv pages (next (pagesFetch pages) g).2 rs) := by
  cases hend : g.endOfList with
  | true =>
      have hrem : rem = [] := genInv_endOfList pages g rem hinv hend
      have hn : next (pagesFetch pages) g = (.error .endOfList, g) := by
        unfold next
        rw [hend]
        rfl
      subst hrem
      refine ⟨fun _ => ?_, fun a rs h => absurd h (by simp)⟩
      rw [hn]
      exact ⟨rfl, hinv⟩
  | false =>
      have hmid := getNextPage_mid pages g rem hne hinv hend
      have hG : getNextPage (pagesFetch pages) g =
          (none, (getNextPage (pagesFetch pages) g).2) :=
        Prod.ext (getNextPage_pagesFetch_fst pages g) rfl
      set G2 := (getNextPage (pagesFetch pages) g).2 with hG2
      have hn : next (pagesFetch pages) g =
          if decide (G2.items.length ≤ G2.index) && G2.lastPage then
            (.error .endOfList, { G2 with endOfList := true })
          else
            match G2.items.get? G2.index with
            | some a => (.ok a, { G2 with
                index := G2.index + 1
                endOfList := decide (G2.items.length ≤ G2.index + 1) && G2.lastPage })
            | none => (.error .indexPanic, { G2 with
                index := G2.index + 1
                endOfList := decide (G2.items.length ≤ G2.index + 1) && G2.lastPage }) := by
        unfold next
        rw [hend, hG]
        rfl
      obtain ⟨p, hp1, hp2, hitems, hidx, hnp, hlp, heol, hrem, hdisj⟩ := hmid
      have hiff := midInv_endOfList pages G2 rem hne
        ⟨p, hp1, hp2, hitems, hidx, hnp, hlp, heol, hrem, hdisj⟩
      constructor
      · intro hremnil
        have hEnd : G2.endOfList = true := hiff.mpr hremnil
        have hguard : (decide (G2.items.length ≤ G2.index) && G2.lastPage) = true :=
          heol.symm.trans hEnd
        rw [hn, if_pos hguard]
        refine ⟨rfl, Or.inr ⟨p, hp1, hp2, hitems, hidx, hnp, hlp, ?_, ?_⟩⟩
        · show true = (decide (G2.items.length ≤ G2.index) && G2.lastPage)
          exact hguard.symm
        · show ([] : List α) = G2.items.drop G2.index ++ (pages.drop p).flatten
          rw [← hrem, hremnil]
      · intro a rs hremcons
        have hEnd : G2.endOfList = false := by
          cases hb : G2.endOfList with
          | false => rfl
          | true => rw [hiff.mp hb] at hremcons; exact absurd hremcons (by simp)
        have hguard : (decide (G2.items.length ≤ G2.index) && G2.lastPage) = false :=
          heol.symm.trans hEnd
        have hlt : G2.index < G2.items.length := by
          rcases hdisj with hlpt | hlt
          · rw [hlpt, Bool.and_true, decide_eq_false_iff_not, not_le] at hguard
            exact hguard
          · exact hlt
        have hdrop : G2.items.drop G2.index =
            G2.items[G2.index] :: G2.items.drop (G2.index + 1) :=
          List.drop_eq_getElem_cons hlt
        rw [hremcons, hdrop] at hrem
        have hcons := List.cons_eq_cons.mp hrem
        have hget : G2.items.get? G2.index = some G2.items[G2.index] := by
          rw [List.get?_eq_getElem?, List.getElem?_eq_getElem hlt]
        rw [hn, if_neg (by rw [hguard]; exact Bool.false_ne_true), hget]
        refine ⟨by rw [hcons.1], Or.inr ⟨p, hp1, hp2, hitems, hlt, hnp, hlp, rfl, ?_⟩⟩
        show rs = G2.items.drop (G2.index + 1) ++ (pages.drop p).flatten
        exact hcons.2

/-- Any interleaving of `HasNext`/`Next` calls from an invariant state
observes exactly the intended trace. -/
lemma runGen_spec (pages : List (List α)) (hne : PagesNonempty pages) :
    ∀ (ops : List GenOp) (g : GenState α) (rem : List α), GenInv pages g rem →
      runGen (pagesFetch pages) ops g = specTrace ops rem := by
  intro ops
  induction ops with
  | nil => intro g rem _; rfl
  | cons op ops ih =>
      intro g rem hinv
      cases op with
      | opHasNext =>
          obtain ⟨hb, hinv'⟩ := hasNext_sim pages g rem hne hinv
          have hrw : runGen (pagesFetch pages) (.opHasNext :: ops) g =
              .outHas (hasNext (pagesFetch pages) g).1 ::
                runGen (pagesFetch pages) ops (hasNext (pagesFetch pages) g).2 := rfl
          rw [hrw, hb, ih _ _ hinv']
          rfl
      | opNext =>
          have hrw : runGen (pagesFetch pages) (.opNext :: ops) g =
              .outNext (next (pagesFetch pages) g).1 ::
                runGen (pagesFetch pages) ops (next (pagesFetch pages) g).2 := rfl
          cases rem with
          | nil =>
              obtain ⟨hr, hinv'⟩ := (next_sim pages g [] hne hinv).1 rfl
              rw [hrw, hr, ih _ _ hinv']
              rfl
          | cons a rs =>
              obtain ⟨hr, hinv'⟩ := (next_sim pages g (a :: rs) hne hinv).2 a rs rfl
              rw [hrw, hr, ih _ _ hinv']
              rfl

/-- C3: for every sequence of items split across pages (all fetches
succeeding), a `PagedListGenerator` driven by any interleaving of `HasNext`
and `Next` calls yields exactly the items in their original order, then
`Next` fails with `EndOfList`, every later `Next` keeps failing with
`EndOfList`, and `HasNext` reports `false` once the items are exhausted —
regardless of where the page boundaries fall. -/
theorem c3_generator_trace (pages : List (List α)) (ops : List GenOp)
    (hne : ∀ pg ∈ pages, pg ≠ []) :
    runGen (pagesFetch pages) ops initGen = specTrace ops pages.flatten :=
  runGen_spec pages hne ops initGen pages.flatten (Or.inl ⟨rfl, rfl⟩)

/-- Witness for C3 at a concrete page split and call pattern. -/
theorem c3_generator_trace_witness :
    (∀ pg ∈ [[1, 2], [3]], pg ≠ ([] : List Nat)) ∧
    runGen (pagesFetch [[1, 2], [3]])
        [.opHasNext, .opNext, .opNext, .opHasNext, .opNext, .opNext, .opNext, .opHasNext]
        initGen =
      specTrace [.opHasNext, .opNext, .opNext, .opHasNext, .opNext, .opNext, .opNext, .opHasNext]
        [1, 2, 3] :=
  ⟨by decide, c3_generator_trace [[1, 2], [3]] _ (by decide)⟩

/-- Unfolding of `hasNext` out of the exhausted flag. -/
lemma hasNext_of_getNextPage (fetch : Nat → Except ε (FetchResult α))
    (g : GenState α) (r : Option ε × GenState α)
    (h1 : g.endOfList = false) (hg : getNextPage fetch g = r) :
    hasNext fetch g = (!r.2.endOfList, r.2) := by
  unfold hasNext
  rw [h1, hg]
  rfl

/-- `Next` surfaces a `getNextPage` error. -/
lemma next_of_getNextPage_error (fetch : Nat → Except ε (FetchResult α))
    (g gm : GenState α) (e : ε)
    (h1 : g.endOfList = false) (hg : getNextPage fetch g = (some e, gm)) :
    next fetch g = (.error (.fetchErr e), gm) := by
  unfold next
  rw [h1, hg]
  rfl

/-- A failing fetch leaves the state mutated exactly as the Go code does. -/
lemma getNextPage_error (fetch : Nat → Except ε (FetchResult α))
    (g : GenState α) (e : ε)
    (h2 : g.lastPage = false) (h3 : g.items.length ≤ g.index)
    (h4 : fetch g.nextPage = .error e) :
    getNextPage fetch g = (some e, { g with index := 0, items := [] }) := by
  unfold getNextPage
  rw [h2, h4]
  simp [h3]

/-- C4: a page-fetch failure is not swallowed — `HasNext` still reports
`true` (so the caller proceeds rather than silently stopping early), and
the `Next` call surfaces the fetch error to its caller, whether it follows
the failing `HasNext` or is called directly. -/
theorem c4_fetch_error_propagates (fetch : Nat → Except ε (FetchResult α))
    (g : GenState α) (e : ε)
    (h1 : g.endOfList = false) (h2 : g.lastPage = false)
    (h3 : g.items.length ≤ g.index) (h4 : fetch g.nextPage = .error e) :
    (hasNext fetch g).1 = true ∧
    (next fetch (hasNext fetch g).2).1 = .error (.fetchErr e) ∧
    (next fetch g).1 = .error (.fetchErr e) := by
  have hgnp := getNextPage_error fetch g e h2 h3 h4
  have hhn := hasNext_of_getNextPage fetch g _ h1 hgnp
  have h1' : ({ g with index := 0, items := [] } : GenState α).endOfList = false := h1
  have h4' : fetch ({ g with index := 0, items := [] } : GenState α).nextPage =
      .error e := h4
  have hgnp2 := getNextPage_error fetch { g with index := 0, items := [] } e h2
    (Nat.le_refl 0) h4'
  have hnx2 := next_of_getNextPage_error fetch { g with index := 0, items := [] }
    _ e h1' hgnp2
  have hnx := next_of_getNextPage_error fetch g _ e h1 hgnp
  refine ⟨?_, ?_, ?_⟩
  · rw [hhn]
    show (!g.endOfList) = true
    rw [h1]
    rfl
  · rw [hhn]
    show (next fetch ({ g with index := 0, items := [] } : GenState α)).1 =
      .error (.fetchErr e)
    rw [hnx2]
  · rw [hnx]

/-- Witness for C4: a fetch that always fails, from the initial state. -/
theorem c4_fetch_error_propagates_witness :
    ((initGen : GenState Nat).endOfList = false ∧
      (initGen : GenState Nat).lastPage = false ∧
      (initGen : GenState Nat).items.length ≤ (initGen : GenState Nat).index ∧
      (fun _ : Nat => (Except.error "boom" : Except String (FetchResult Nat)))
        (initGen : GenState Nat).nextPage = .error "boom") ∧
    ((hasNext (fun _ => .error "boom") (initGen : GenState Nat)).1 = true ∧
      (next (fun _ => .error "boom")
        (hasNext (fun _ => .error "boom") (initGen : GenState Nat)).2).1 =
          .error (.fetchErr "boom") ∧
      (next (fun _ => .error "boom") (initGen : GenState Nat)).1 =
        .error (.fetchErr "boom")) :=
  ⟨⟨rfl, rfl, Nat.le_refl 0, rfl⟩,
    c4_fetch_error_propagates _ initGen "boom" rfl rfl (Nat.le_refl 0) rfl⟩

/-- C10: when the first page fetch returns an empty item list with no
further page, `Next` called directly on the fresh generator returns the
`EndOfList` error (no out-of-range item access), `HasNext` reports `false`,
and every later `Next` keeps returning `EndOfList`. -/
theorem c10_empty_first_page (fetch : Nat → Except ε (FetchResult α))
    (hf : fetch 0 = .ok ⟨[], 0⟩) :
    (next fetch initGen).1 = .error .endOfList ∧
    (hasNext fetch initGen).1 = false ∧
    (next fetch (next fetch initGen).2).1 = .error .endOfList := by
  have hgnp : getNextPage fetch initGen =
      (none, ⟨0, 0, [], true, true⟩) := by
    unfold getNextPage
    rw [show (initGen : GenState α).nextPage = 0 from rfl, hf]
    rfl
  have hnext : next fetch initGen = (.error .endOfList, ⟨0, 0, [], true, true⟩) := by
    unfold next
    rw [hgnp]
    rfl
  have hhn : hasNext fetch initGen = (false, ⟨0, 0, [], true, true⟩) := by
    unfold hasNext
    rw [hgnp]
    rfl
  refine ⟨by rw [hnext], by rw [hhn], ?_⟩
  rw [hnext]
  rfl

/-- Witness for C10 at a concrete fetch function. -/
theorem c10_empty_first_page_witness :
    ((fun _ : Nat => (Except.ok ⟨[], 0⟩ : Except Unit (FetchResult Nat))) 0 =
      .ok ⟨[], 0⟩) ∧
    ((next (fun _ : Nat => (Except.ok ⟨[], 0⟩ : Except Unit (FetchResult Nat)))
        (initGen : GenState Nat)).1 = .error .endOfList ∧
      (hasNext (fun _ : Nat => (Except.ok ⟨[], 0⟩ : Except Unit (FetchResult Nat)))
        (initGen : GenState Nat)).1 = false ∧
      (next (fun _ : Nat => (Except.ok ⟨[], 0⟩ : Except Unit (FetchResult Nat)))
        (next (fun _ : Nat => (Except.ok ⟨[], 0⟩ : Except Unit (FetchResult Nat)))
          (initGen : GenState Nat)).2).1 = .error .endOfList) :=
  ⟨rfl, c10_empty_first_page
    (fun _ : Nat => (Except.ok ⟨[], 0⟩ : Except Unit (FetchResult Nat))) rfl⟩

/-! ## Check aggregation (`checkStatusChecks` in renovatepr.go)

The Go function seeds a `map[string]string` from the branch's required
checks, folds commit statuses and then check-runs into it, and classifies
the final mapping.  The map is modelled as an association list
(`List (String × String)`) with Go-map insert/overwrite semantics; the
classification only performs existence checks, so the undetermined Go map
iteration order is immaterial. -/

/-- A required check from branch protection: context plus optional app id. -/
structure RequiredCheck where
  context : String
  appID : Option Int
  deriving Repr, DecidableEq

/-- One result from either subsystem (`runResult` in the source). -/
structure RunResult where
  appId : Option Int
  context : String
  conclusion : String
  deriving Repr, DecidableEq

/-- Disambiguated context key: `fmt.Sprintf("%s/%d", context, appID)` when
an app id is present, the bare context otherwise. -/
def contextKey (context : String) (app : Option Int) : String :=
  match app with
  | some id => context ++ "/" ++ toString id
  | none => context

/-- Go-map membership test for the association-list model. -/
def mapHas (m : List (String × String)) (k : String) : Bool :=
  m.any (fun kv => kv.1 == k)

/-- Go-map write `m[k] = v`: overwrite the existing entry or append. -/
def mapSet (m : List (String × String)) (k v : String) : List (String × String) :=
  if mapHas m k then m.map (fun kv => if kv.1 == k then (k, v) else kv)
  else m ++ [(k, v)]

/-- Seeding pass: every required check starts out `"missing"`. -/
def seedChecks (requiredChecks : List RequiredCheck) : List (String × String) :=
  requiredChecks.foldl (fun m c => mapSet m (contextKey c.context c.appID) "missing") []

/-- Status pass, faithful to the source: the first line writes the status
unconditionally, and the following membership-guarded write is dead code
(the key was just inserted). -/
def applyStatuses (m : List (String × String)) (statuses : List RunResult) :
    List (String × String) :=
  statuses.foldl
    (fun m check =>
      let m := mapSet m check.context check.conclusion
      if mapHas m check.context then mapSet m check.context check.conclusion
      else m)
    m

/-- Check-run pass: only keys already present are overwritten. -/
def applyCheckRuns (m : List (String × String)) (checks : List RunResult) :
    List (String × String) :=
  checks.foldl
    (fun m check =>
      let context := contextKey check.context check.appId
      if mapHas m context then mapSet m context check.conclusion
      else m)
    m

/-- The verdict of `checkStatusChecks`: `ErrFailedCheck`, `ErrMissingCheck`
or `nil`. -/
inductive CheckVerdict where
  | failedCheck
  | missingCheck
  | ready
  deriving Repr, DecidableEq

/-- Final classification loop of `checkStatusChecks`. -/
def classify (m : List (String × String)) : CheckVerdict :=
  let failedCheck := m.any (fun kv => kv.2 == "failed")
  let missingCheck := m.any (fun kv => !(kv.2 == "success") && !(kv.2 == "failed"))
  if failedCheck then .failedCheck
  else if missingCheck || m.isEmpty then .missingCheck
  else .ready

/-- The final verdict mapping built by `checkStatusChecks` from its three
fetched inputs. -/
def checkResults (requiredChecks : List RequiredCheck)
    (statuses checks : List RunResult) : List (String × String) :=
  applyCheckRuns (applyStatuses (seedChecks requiredChecks) statuses) checks

/-- `checkStatusChecks` on successfully fetched inputs. -/
def checkStatusChecks (requiredChecks : List RequiredCheck)
    (statuses checks : List RunResult) : CheckVerdict :=
  classify (checkResults requiredChecks statuses checks)

/-- Modelled from the spec: the classification as worded in the design
document — any `"failed"` conclusion means failed; otherwise any
non-`"success"` conclusion or an empty mapping means missing; otherwise
ready. -/
def specClassify (m : List (String × String)) : CheckVerdict :=
  if m.any (fun kv => kv.2 == "failed") then .failedCheck
  else if m.any (fun kv => !(kv.2 == "success")) || m.isEmpty then .missingCheck
  else .ready

/-! ## Candidate selection and the merge step (`mergeStep`, `chooseActivePr`) -/

/-- The pull-request fields consulted by the orchestration code. -/
structure PullRequest where
  number : Nat
  userLogin : String
  title : String
  mergeable : Bool
  rebaseable : Bool
  prState : String
  deriving Repr, DecidableEq

/-- `chooseActivePr`: remember the last mergeable pull request seen; if
none was seen, fall back to `renovatePrs[0]` (`none` models the Go panic
on an empty slice, which the caller excludes). -/
def chooseActivePr (renovatePrs : List PullRequest) : Option PullRequest :=
  let activePr := renovatePrs.foldl
    (fun activePr pr => if pr.mergeable then some pr else activePr) none
  match activePr with
  | some pr => some pr
  | none => renovatePrs.head?

/-- Modelled from the spec: return the last scanned pull request whose
mergeable flag is true, else the first pull request of the list. -/
def specSelect (prs : List PullRequest) : Option PullRequest :=
  match (prs.filter (fun pr => pr.mergeable)).getLast? with
  | some pr => some pr
  | none => prs.head?

/-- Error classes a merge step can report: the two check verdict errors
plus any other (transport) failure. -/
inductive StepErr (ε : Type) where
  | failedCheck
  | missingCheck
  | transport (e : ε)
  deriving Repr, DecidableEq

/-- Outcomes of the remote calls made during one `mergeStep` iteration.
`listPrs` is the outcome of draining the open-pull-request generator;
`checks` is the result of `checkStatusChecks` (`none` = all checks pass);
the remaining fields are the outcomes of `approveWorkflowRuns`,
`approvePr` and `mergePr` for the active pull request. -/
structure StepEnv (ε : Type) where
  listPrs : Except ε (List PullRequest)
  approveRuns : PullRequest → Option ε
  checks : PullRequest → Option (StepErr ε)
  approveReview : PullRequest → Option ε
  merge : PullRequest → Option ε

/-- `mergeStep`: one orchestration iteration.  Returns the Go pair
`(hasMore, error)`.  The `none` branch of `chooseActivePr` is unreachable
for a nonempty filtered list (see `chooseActivePr_isSome`). -/
def mergeStep (env : StepEnv ε) : Bool × Option (StepErr ε) :=
  match env.listPrs with
  | .error e => (false, some (.transport e))
  | .ok prs =>
      let renovatePrs := prs.filter (fun pr => pr.userLogin == "renovate-bot")
      if renovatePrs.isEmpty then (false, none)
      else
        match chooseActivePr renovatePrs with
        | none => (false, none)
        | some activePr =>
            match env.approveRuns activePr with
            | some e => (true, some (.transport e))
            | none =>
                match env.checks activePr with
                | some .missingCheck => (true, some .missingCheck)
                | some e => (false, some e)
                | none =>
                    match env.approveReview activePr with
                    | some e => (true, some (.transport e))
                    | none => (true, (env.merge activePr).map .transport)

/-! ## Merge execution (`mergePr`) -/

/-- The platform's merge response (`PullRequestMergeResult`). -/
structure PullRequestMergeResult where
  merged : Bool
  message : String
  deriving Repr, DecidableEq

/-- The arguments `mergePr` passes to the platform merge call
(`client.PullRequests.Merge`): pull number, the commit-message argument
(the source passes `activePr.GetState()` there), the merge method and the
commit title. -/
structure MergeCall where
  number : Nat
  commitMessage : String
  mergeMethod : String
  commitTitle : String
  deriving Repr, DecidableEq

/-- Failure modes of `mergePr`. -/
inductive MergeErr (ε : Type) where
  | transport (e : ε)
  | notRebaseable (number : Nat)
  | notMerged (number : Nat) (msg : String)
  | mergeFailed (number : Nat) (e : ε)
  deriving Repr, DecidableEq

/-- `mergePr`: re-fetch the pull request, refuse non-rebaseable ones before
any merge call, then issue one squash merge.  The returned list records the
platform merge calls issued. -/
def mergePr (refetch : Except ε PullRequest)
    (mergeApi : MergeCall → Option PullRequestMergeResult × Option ε) :
    Option (MergeErr ε) × List MergeCall :=
  match refetch with
  | .error e => (some (.transport e), [])
  | .ok activePr =>
      if !activePr.rebaseable then (some (.notRebaseable activePr.number), [])
      else
        let call : MergeCall :=
          ⟨activePr.number, activePr.prState, "squash", activePr.title⟩
        let (mergeResult, err) := mergeApi call
        match mergeResult with
        | some res =>
            if res.merged then (none, [call])
            else (some (.notMerged activePr.number res.message), [call])
        | none =>
            match err with
            | some e => (some (.mergeFailed activePr.number e), [call])
            | none => (none, [call])

/-! ## Review approval (`approvePr`) -/

/-- The review field consulted by `approvePr`. -/
structure Review where
  reviewState : String
  deriving Repr, DecidableEq

/-- Failure modes `approvePr` actually reports. -/
inductive ApproveErr (ε : Type) where
  | listErr (e : ε)
  | createErr (e : ε)
  deriving Repr, DecidableEq

/-- `approvePr`: skip when an `"APPROVED"` review exists, otherwise create
a review and then submit it.  Faithful to the source: the `SubmitReview`
call's return values are discarded, and the error check that follows
re-examines the (necessarily nil) `CreateReview` error, so a submit
failure (`submitOutcome = some e`) is never surfaced. -/
def approvePr (reviews : Except ε (List Review)) (createReview : Except ε Review)
    (submitOutcome : Option ε) : Option (ApproveErr ε) :=
  match reviews with
  | .error e => some (.listErr e)
  | .ok rs =>
      let approved := rs.any (fun r => r.reviewState == "APPROVED")
      if approved then none
      else
        match createReview with
        | .error e => some (.createErr e)
        | .ok _lgtmReview =>
            let _ := submitOutcome
            none

/-! ## The orchestration loop (`MergePRs`) -/

/-- The loop of `MergePRs`: `for i := 1; i < 100 && errCount < 10; i++`.
`stp i` is the outcome of `mergeStep` at iteration `i`.  Returns the Go
return value (the last step error) together with the number of `mergeStep`
invocations performed, as instrumentation for the termination bound. -/
def mergeLoop (stp : Nat → Bool × Option (StepErr ε)) (i errCount : Nat)
    (err : Option (StepErr ε)) : Option (StepErr ε) × Nat :=
  if h : i < 100 ∧ errCount < 10 then
    let step := stp i
    if !step.1 then (step.2, 1)
    else if step.2.isSome then
      let r := mergeLoop stp (i + 1) (errCount + 1) step.2
      (r.1, r.2 + 1)
    else
      let r := mergeLoop stp (i + 1) 0 step.2
      (r.1, r.2 + 1)
  else (err, 0)
termination_by 100 - i

/-- `MergePRs`: run the loop from `i = 1`, `errCount = 0`, no error. -/
def mergePRs (stp : Nat → Bool × Option (StepErr ε)) :
    Option (StepErr ε) × Nat :=
  mergeLoop stp 1 0 none

/-- C1 (code bug): the status fold does NOT leave the key set fixed.  With
no required checks and a single commit status for context `"x"`, the final
verdict mapping gains the key `"x"` even though the seeded key set is
empty: the unconditional map write in the status loop precedes its
membership guard, so non-required statuses are added rather than ignored. -/
theorem c1_status_fold_extends_keys :
    (checkResults [] [⟨none, "x", "success"⟩] []).map Prod.fst = ["x"] ∧
    (seedChecks []).map Prod.fst = ([] : List String) :=
  ⟨rfl, rfl⟩

/-- When no conclusion is `"failed"`, testing "neither success nor failed"
coincides with testing "not success". -/
lemma any_missing_eq_any_nonsuccess (m : List (String × String))
    (hf : m.any (fun kv => kv.2 == "failed") = false) :
    m.any (fun kv => !(kv.2 == "success") && !(kv.2 == "failed")) =
      m.any (fun kv => !(kv.2 == "success")) := by
  induction m with
  | nil => rfl
  | cons kv t ih =>
      rw [List.any_cons, List.any_cons] at *
      rw [Bool.or_eq_false_iff] at hf
      rw [ih hf.2, hf.1]
      simp

/-- C2: for every final verdict mapping produced by `checkStatusChecks`,
the classification follows the spec's wording — any `"failed"` conclusion
gives the failed-check error; otherwise any non-`"success"` conclusion
(including `"missing"`) or an empty mapping gives the missing-check error;
otherwise the verdict is ready. -/
theorem c2_classification (requiredChecks : List RequiredCheck)
    (statuses checks : List RunResult) :
    checkStatusChecks requiredChecks statuses checks =
      specClassify (checkResults requiredChecks statuses checks) := by
  unfold checkStatusChecks
  generalize checkResults requiredChecks statuses checks = m
  cases hf : m.any (fun kv => kv.2 == "failed") with
  | true => simp [classify, specClassify, hf]
  | false =>
      simp only [classify, specClassify, hf]
      rw [any_missing_eq_any_nonsuccess m hf]

/-- The fold in `chooseActivePr` computes the last mergeable element (or
the accumulator when none is mergeable). -/
lemma foldl_mergeable (prs : List PullRequest) (acc : Option PullRequest) :
    prs.foldl (fun activePr pr => if pr.mergeable then some pr else activePr) acc =
      match (prs.filter (fun pr => pr.mergeable)).getLast? with
      | some pr => some pr
      | none => acc := by
  induction prs generalizing acc with
  | nil => rfl
  | cons pr t ih =>
      cases hm : pr.mergeable with
      | true =>
          rw [List.foldl_cons, hm, if_pos rfl, ih (some pr),
            List.filter_cons_of_pos (by simp [hm])]
          cases hl : (t.filter (fun pr => pr.mergeable)).getLast? with
          | some q => simp [List.getLast?_cons, hl]
          | none => simp [List.getLast?_cons, hl]
      | false =>
          rw [List.foldl_cons, hm, if_neg Bool.false_ne_true, ih acc,
            List.filter_cons_of_neg (by simp [hm])]

/-- C6: `chooseActivePr` returns the last scanned pull request whose
mergeable flag is true, or the first pull request when none is mergeable
(per `specSelect`); and when the filtered bot-PR set is empty, the step
selects nothing and reports no more work. -/
theorem c6_candidate_selection (prs prs0 : List PullRequest) (env : StepEnv ε) :
    (prs ≠ [] → chooseActivePr prs = specSelect prs) ∧
    (env.listPrs = .ok prs0 →
      prs0.filter (fun pr => pr.userLogin == "renovate-bot") = [] →
      mergeStep env = (false, none)) := by
  constructor
  · intro _
    unfold chooseActivePr specSelect
    rw [foldl_mergeable prs none]
    cases hl : (prs.filter (fun pr => pr.mergeable)).getLast? with
    | some q => rfl
    | none => rfl
  · intro hok hemp
    unfold mergeStep
    rw [hok]
    simp [hemp]

/-- Witness for C6 at the spec's own test vectors. -/
theorem c6_candidate_selection_witness :
    chooseActivePr
        [⟨1, "renovate-bot", "a", false, true, "open"⟩,
         ⟨2, "renovate-bot", "b", true, true, "open"⟩,
         ⟨3, "renovate-bot", "c", true, true, "open"⟩] =
      some ⟨3, "renovate-bot", "c", true, true, "open"⟩ ∧
    chooseActivePr [⟨1, "renovate-bot", "a", false, true, "open"⟩] =
      some ⟨1, "renovate-bot", "a", false, true, "open"⟩ ∧
    mergeStep (ε := String)
        { listPrs := .ok []
          approveRuns := fun _ => none
          checks := fun _ => none
          approveReview := fun _ => none
          merge := fun _ => none } = (false, none) := by
  refine ⟨?_, ?_, ?_⟩
  · rw [(c6_candidate_selection (ε := String)
      [⟨1, "renovate-bot", "a", false, true, "open"⟩,
       ⟨2, "renovate-bot", "b", true, true, "open"⟩,
       ⟨3, "renovate-bot", "c", true, true, "open"⟩] []
      { listPrs := .ok []
        approveRuns := fun _ => none
        checks := fun _ => none
        approveReview := fun _ => none
        merge := fun _ => none }).1 (by decide)]
    decide
  · rw [(c6_candidate_selection (ε := String)
      [⟨1, "renovate-bot", "a", false, true, "open"⟩] []
      { listPrs := .ok []
        approveRuns := fun _ => none
        checks := fun _ => none
        approveReview := fun _ => none
        merge := fun _ => none }).1 (by decide)]
    decide
  · exact (c6_candidate_selection [] []
      { listPrs := .ok []
        approveRuns := fun _ => none
        checks := fun _ => none
        approveReview := fun _ => none
        merge := fun _ => none }).2 rfl rfl

/-- C5 counterexample: a transport error raised while computing the check
verdict (the Checking phase) is NOT reported as retryable — `mergeStep`
returns `hasMore = false`, so the run terminates instead of sleeping and
retrying.  This refutes the claim that every non-failed-check error from
the Gating/Checking/Merging phases is treated as transient. -/
theorem c5_check_transport_aborts :
    (mergeStep
      { listPrs := .ok [⟨1, "renovate-bot", "t", true, true, "open"⟩]
        approveRuns := fun _ => none
        checks := fun _ => some (.transport "boom")
        approveReview := fun _ => none
        merge := fun _ => (none : Option String) }).1 = false ∧
    (mergeStep
      { listPrs := .ok [⟨1, "renovate-bot", "t", true, true, "open"⟩]
        approveRuns := fun _ => none
        checks := fun _ => some (.transport "boom")
        approveReview := fun _ => none
        merge := fun _ => (none : Option String) }).2 =
      some (.transport "boom") :=
  ⟨rfl, rfl⟩

/-- C5 (amended): error routing of `mergeStep`.  Errors from the Gating
(workflow approval), review-approval and Merging phases are retryable
(`hasMore = true`), and a missing-check verdict is retryable; but any
other Checking-phase error — a failed-check verdict or a transport error
while fetching required checks, statuses or check-runs — terminates the
run (`hasMore = false`), as does a failure during candidate listing. -/
theorem c5_step_error_routing (env : StepEnv ε) (prs : List PullRequest)
    (pr : PullRequest) (e : ε)
    (hlist : env.listPrs = .ok prs)
    (hfil : (prs.filter (fun x => x.userLogin == "renovate-bot")).isEmpty = false)
    (hsel : chooseActivePr (prs.filter (fun x => x.userLogin == "renovate-bot")) =
      some pr) :
    (env.approveRuns pr = some e → mergeStep env = (true, some (.transport e))) ∧
    (env.approveRuns pr = none → env.checks pr = some .missingCheck →
      mergeStep env = (true, some .missingCheck)) ∧
    (env.approveRuns pr = none → env.checks pr = some .failedCheck →
      mergeStep env = (false, some .failedCheck)) ∧
    (env.approveRuns pr = none → env.checks pr = some (.transport e) →
      mergeStep env = (false, some (.transport e))) ∧
    (env.approveRuns pr = none → env.checks pr = none →
      env.approveReview pr = some e → mergeStep env = (true, some (.transport e))) ∧
    (env.approveRuns pr = none → env.checks pr = none →
      env.approveReview pr = none →
      mergeStep env = (true, (env.merge pr).map .transport)) ∧
    (∀ (env' : StepEnv ε) (e' : ε), env'.listPrs = .error e' →
      mergeStep env' = (false, some (.transport e'))) := by
  have hstep : mergeStep env =
      (match env.approveRuns pr with
        | some e => (true, some (.transport e))
        | none =>
            match env.checks pr with
            | some .missingCheck => (true, some .missingCheck)
            | some e => (false, some e)
            | none =>
                match env.approveReview pr with
                | some e => (true, some (.transport e))
                | none => (true, (env.merge pr).map .transport)) := by
    unfold mergeStep
    rw [hlist]
    simp only [hfil, Bool.false_eq_true, if_false, hsel]
  refine ⟨?_, ?_, ?_, ?_, ?_, ?_, ?_⟩
  · intro ha
    rw [hstep, ha]
  · intro ha hc
    rw [hstep, ha, hc]
  · intro ha hc
    rw [hstep, ha, hc]
  · intro ha hc
    rw [hstep, ha, hc]
  · intro ha hc hr
    rw [hstep, ha, hc, hr]
  · intro ha hc hr
    rw [hstep, ha, hc, hr]
  · intro env' e' h
    unfold mergeStep
    rw [h]

/-- Witness for the amended C5 at concrete environments: a missing-check
verdict is retryable; a merge-phase failure is retryable. -/
theorem c5_step_error_routing_witness :
    mergeStep (ε := String)
        { listPrs := .ok [⟨1, "renovate-bot", "t", true, true, "open"⟩]
          approveRuns := fun _ => none
          checks := fun _ => some .missingCheck
          approveReview := fun _ => none
          merge := fun _ => none } = (true, some .missingCheck) ∧
    mergeStep (ε := String)
        { listPrs := .ok [⟨1, "renovate-bot", "t", true, true, "open"⟩]
          approveRuns := fun _ => none
          checks := fun _ => none
          approveReview := fun _ => none
          merge := fun _ => some "merge refused" } =
      (true, (some "merge refused").map .transport) :=
  ⟨(c5_step_error_routing
      { listPrs := .ok [⟨1, "renovate-bot", "t", true, true, "open"⟩]
        approveRuns := fun _ => none
        checks := fun _ => some .missingCheck
        approveReview := fun _ => none
        merge := fun _ => none }
      [⟨1, "renovate-bot", "t", true, true, "open"⟩]
      ⟨1, "renovate-bot", "t", true, true, "open"⟩ "x" rfl (by decide)
      (by decide)).2.1 rfl rfl,
   (c5_step_error_routing
      { listPrs := .ok [⟨1, "renovate-bot", "t", true, true, "open"⟩]
        approveRuns := fun _ => none
        checks := fun _ => none
        approveReview := fun _ => none
        merge := fun _ => some "merge refused" }
      [⟨1, "renovate-bot", "t", true, true, "open"⟩]
      ⟨1, "renovate-bot", "t", true, true, "open"⟩ "x" rfl (by decide)
      (by decide)).2.2.2.2.2.1 rfl rfl rfl⟩

/-- Unfolding of `mergePr` on a successful re-fetch. -/
lemma mergePr_ok (pr : PullRequest)
    (mergeApi : MergeCall → Option PullRequestMergeResult × Option ε) :
    mergePr (.ok pr) mergeApi =
      if !pr.rebaseable then (some (.notRebaseable pr.number), [])
      else
        match (mergeApi ⟨pr.number, pr.prState, "squash", pr.title⟩).1 with
        | some res =>
            if res.merged then (none, [⟨pr.number, pr.prState, "squash", pr.title⟩])
            else (some (.notMerged pr.number res.message),
              [⟨pr.number, pr.prState, "squash", pr.title⟩])
        | none =>
            match (mergeApi ⟨pr.number, pr.prState, "squash", pr.title⟩).2 with
            | some e => (some (.mergeFailed pr.number e),
                [⟨pr.number, pr.prState, "squash", pr.title⟩])
            | none => (none, [⟨pr.number, pr.prState, "squash", pr.title⟩]) := rfl

/-- C7: `mergePr` re-fetches the pull request; a non-rebaseable refreshed
pull request yields an error with no platform merge call issued; a
rebaseable one yields exactly one squash merge call carrying the pull
request's title as commit title, succeeds exactly when the platform
response reports the merge as completed, and fails with the platform's
message attached when the response reports not-merged. -/
theorem c7_merge_executor (refetch : Except ε PullRequest)
    (mergeApi : MergeCall → Option PullRequestMergeResult × Option ε)
    (pr : PullRequest) (res : PullRequestMergeResult)
    (hok : refetch = .ok pr) :
    (pr.rebaseable = false →
      mergePr refetch mergeApi = (some (.notRebaseable pr.number), [])) ∧
    (pr.rebaseable = true →
      (mergePr refetch mergeApi).2 =
        [⟨pr.number, pr.prState, "squash", pr.title⟩]) ∧
    (pr.rebaseable = true →
      (mergeApi ⟨pr.number, pr.prState, "squash", pr.title⟩).1 = some res →
      ((mergePr refetch mergeApi).1 = none ↔ res.merged = true) ∧
      (res.merged = false →
        (mergePr refetch mergeApi).1 = some (.notMerged pr.number res.message))) := by
  subst hok
  refine ⟨?_, ?_, ?_⟩
  · intro hreb
    rw [mergePr_ok, hreb]
    rfl
  · intro hreb
    rw [mergePr_ok, hreb]
    simp only [Bool.not_true, Bool.false_eq_true, if_false]
    cases hmr : (mergeApi ⟨pr.number, pr.prState, "squash", pr.title⟩).1 with
    | some r => cases hm : r.merged <;> simp [hm]
    | none => cases he : (mergeApi ⟨pr.number, pr.prState, "squash", pr.title⟩).2 <;>
        simp [he]
  · intro hreb hres
    rw [mergePr_ok, hreb]
    simp only [Bool.not_true, Bool.false_eq_true, if_false]
    rw [hres]
    refine ⟨?_, ?_⟩
    · cases hm : res.merged <;> simp [hm]
    · intro hm
      simp [hm]

/-- Witness for C7 at concrete refetches and platform responses. -/
theorem c7_merge_executor_witness :
    mergePr (Except.ok (⟨8, "renovate-bot", "t8", true, false, "open"⟩ : PullRequest))
        (fun _ => ((some ⟨true, "merged ok"⟩ : Option PullRequestMergeResult),
          (none : Option String))) = (some (.notRebaseable 8), []) ∧
    (mergePr (Except.ok (⟨7, "renovate-bot", "t7", true, true, "open"⟩ : PullRequest))
        (fun _ => ((some ⟨true, "merged ok"⟩ : Option PullRequestMergeResult),
          (none : Option String)))).2 = [⟨7, "open", "squash", "t7"⟩] ∧
    (mergePr (Except.ok (⟨7, "renovate-bot", "t7", true, true, "open"⟩ : PullRequest))
        (fun _ => ((some ⟨true, "merged ok"⟩ : Option PullRequestMergeResult),
          (none : Option String)))).1 = none ∧
    (mergePr (Except.ok (⟨7, "renovate-bot", "t7", true, true, "open"⟩ : PullRequest))
        (fun _ => ((some ⟨false, "conflict"⟩ : Option PullRequestMergeResult),
          (none : Option String)))).1 = some (.notMerged 7 "conflict") :=
  ⟨(c7_merge_executor (Except.ok ⟨8, "renovate-bot", "t8", true, false, "open"⟩)
      (fun _ => (some ⟨true, "merged ok"⟩, none))
      ⟨8, "renovate-bot", "t8", true, false, "open"⟩ ⟨true, "merged ok"⟩ rfl).1 rfl,
   ((c7_merge_executor (Except.ok ⟨7, "renovate-bot", "t7", true, true, "open"⟩)
      (fun _ => (some ⟨true, "merged ok"⟩, none))
      ⟨7, "renovate-bot", "t7", true, true, "open"⟩ ⟨true, "merged ok"⟩ rfl).2.1 rfl).trans rfl,
   (((c7_merge_executor (Except.ok ⟨7, "renovate-bot", "t7", true, true, "open"⟩)
      (fun _ => (some ⟨true, "merged ok"⟩, none))
      ⟨7, "renovate-bot", "t7", true, true, "open"⟩ ⟨true, "merged ok"⟩ rfl).2.2 rfl rfl).1.mpr rfl),
   ((((c7_merge_executor (Except.ok ⟨7, "renovate-bot", "t7", true, true, "open"⟩)
      (fun _ => (some ⟨false, "conflict"⟩, none))
      ⟨7, "renovate-bot", "t7", true, true, "open"⟩ ⟨false, "conflict"⟩ rfl).2.2 rfl rfl).2 rfl).trans rfl)⟩

/-- The loop executes at most `100 - i` steps from iteration `i`. -/
lemma mergeLoop_count_le (stp : Nat → Bool × Option (StepErr ε)) :
    ∀ (n i errCount : Nat) (err : Option (StepErr ε)), 100 - i ≤ n →
      (mergeLoop stp i errCount err).2 ≤ 100 - i := by
  intro n
  induction n with
  | zero =>
      intro i errCount err h
      rw [mergeLoop.eq_def]
      rw [dif_neg (by omega)]
      simp
  | succ n ih =>
      intro i errCount err h
      rw [mergeLoop.eq_def]
      by_cases hc : i < 100 ∧ errCount < 10
      · rw [dif_pos hc]
        cases hm : (stp i).1 with
        | false =>
            simp only [hm, Bool.not_false, if_true]
            omega
        | true =>
            cases hs : (stp i).2.isSome with
            | true =>
                simp only [hm, Bool.not_true, Bool.false_eq_true, if_false, hs, if_true]
                have := ih (i + 1) (errCount + 1) (stp i).2 (by omega)
                omega
            | false =>
                simp only [hm, Bool.not_true, Bool.false_eq_true, if_false, hs]
                have := ih (i + 1) 0 (stp i).2 (by omega)
                omega
      · rw [dif_neg hc]
        simp

/-- With every step failing but reporting more work, the loop executes
exactly `10 - errCount` further steps before the failure threshold stops
it. -/
lemma mergeLoop_always_fail (stp : Nat → Bool × Option (StepErr ε))
    (hstp : ∀ j, (stp j).1 = true ∧ (stp j).2.isSome = true) :
    ∀ (n i errCount : Nat) (err : Option (StepErr ε)), errCount ≤ 10 →
      10 - errCount ≤ n → i + (10 - errCount) ≤ 100 →
      (mergeLoop stp i errCount err).2 = 10 - errCount := by
  intro n
  induction n with
  | zero =>
      intro i errCount err h1 h2 h3
      rw [mergeLoop.eq_def, dif_neg (by omega)]
      show 0 = 10 - errCount
      omega
  | succ n ih =>
      intro i errCount err h1 h2 h3
      by_cases hc : errCount < 10
      · have hi : i < 100 := by omega
        rw [mergeLoop.eq_def, dif_pos ⟨hi, hc⟩]
        simp only [(hstp i).1, Bool.not_true, Bool.false_eq_true, if_false,
          (hstp i).2, if_true]
        have := ih (i + 1) (errCount + 1) (stp i).2 (by omega) (by omega) (by omega)
        omega
      · rw [mergeLoop.eq_def, dif_neg (by omega)]
        show 0 = 10 - errCount
        omega

/-- When no step ever reports an error, the loop returns no error. -/
lemma mergeLoop_no_error (stp : Nat → Bool × Option (StepErr ε))
    (hstp : ∀ j, (stp j).2 = none) :
    ∀ (n i errCount : Nat), 100 - i ≤ n →
      (mergeLoop stp i errCount none).1 = none := by
  intro n
  induction n with
  | zero =>
      intro i errCount h
      rw [mergeLoop.eq_def, dif_neg (by omega)]
  | succ n ih =>
      intro i errCount h
      rw [mergeLoop.eq_def]
      by_cases hc : i < 100 ∧ errCount < 10
      · rw [dif_pos hc]
        cases hm : (stp i).1 with
        | false =>
            simp only [hm, Bool.not_false, if_true]
            exact hstp i
        | true =>
            simp only [hm, Bool.not_true, Bool.false_eq_true, if_false, hstp i,
              Option.isSome_none]
            exact ih (i + 1) 0 (by omega)
      · rw [dif_neg hc]

/-- C8: the orchestrator loop always terminates within the fixed iteration
cap (at most 99 steps); a first step that aborts with a failed-check
verdict ends the run after exactly one step with that error; with every
step failing retryably, the consecutive-failure counter stops the loop
after exactly 10 steps; when no step reports an error (an eventually empty
candidate set), the run ends with no error; and the counter is incremented
by each failed retryable step and reset to zero by each successful one. -/
theorem c8_loop_termination (stp : Nat → Bool × Option (StepErr ε)) :
    (mergePRs stp).2 ≤ 99 ∧
    (stp 1 = (false, some .failedCheck) →
      mergePRs stp = (some .failedCheck, 1)) ∧
    ((∀ j, (stp j).1 = true ∧ (stp j).2.isSome = true) →
      (mergePRs stp).2 = 10) ∧
    ((∀ j, (stp j).2 = none) → (mergePRs stp).1 = none) ∧
    (∀ (i errCount : Nat) (err : Option (StepErr ε)),
      i < 100 → errCount < 10 → (stp i).1 = true →
      ((stp i).2.isSome = true →
        mergeLoop stp i errCount err =
          ((mergeLoop stp (i + 1) (errCount + 1) (stp i).2).1,
            (mergeLoop stp (i + 1) (errCount + 1) (stp i).2).2 + 1)) ∧
      ((stp i).2 = none →
        mergeLoop stp i errCount err =
          ((mergeLoop stp (i + 1) 0 none).1,
            (mergeLoop stp (i + 1) 0 none).2 + 1))) := by
  refine ⟨?_, ?_, ?_, ?_, ?_⟩
  · have := mergeLoop_count_le stp 100 1 0 none (by omega)
    show (mergeLoop stp 1 0 none).2 ≤ 99
    omega
  · intro h
    show mergeLoop stp 1 0 none = (some .failedCheck, 1)
    rw [mergeLoop.eq_def, dif_pos (by omega)]
    simp [h]
  · intro h
    have := mergeLoop_always_fail stp h 10 1 0 none (by omega) (by omega) (by omega)
    show (mergeLoop stp 1 0 none).2 = 10
    omega
  · intro h
    exact mergeLoop_no_error stp h 100 1 0 (by omega)
  · intro i errCount err hi hec hm
    constructor
    · intro hs
      conv_lhs => rw [mergeLoop.eq_def]
      rw [dif_pos ⟨hi, hec⟩]
      simp only [hm, Bool.not_true, Bool.false_eq_true, if_false, hs, if_true]
    · intro hs
      conv_lhs => rw [mergeLoop.eq_def]
      rw [dif_pos ⟨hi, hec⟩]
      simp only [hm, Bool.not_true, Bool.false_eq_true, if_false, hs,
        Option.isSome_none]

/-- Witness for C8 at concrete step functions. -/
theorem c8_loop_termination_witness :
    (mergePRs (fun _ => (true, some (.missingCheck : StepErr String)))).2 = 10 ∧
    (mergePRs (fun _ =>
      ((false, some .failedCheck) : Bool × Option (StepErr String)))) =
      (some .failedCheck, 1) ∧
    (mergePRs (fun _ => ((false, none) : Bool × Option (StepErr String)))).1 = none ∧
    (mergePRs (fun _ => ((true, none) : Bool × Option (StepErr String)))).2 ≤ 99 :=
  ⟨(c8_loop_termination (fun _ => (true, some .missingCheck))).2.2.1
      (fun _ => ⟨rfl, rfl⟩),
   (c8_loop_termination (fun _ => (false, some .failedCheck))).2.1 rfl,
   (c8_loop_termination (fun _ => (false, none))).2.2.2.1 (fun _ => rfl),
   (c8_loop_termination (fun _ => (true, none))).1⟩

/-- C9 (code bug): a submit-phase failure after a successful create is NOT
surfaced.  With no prior approved review, a successful `CreateReview` and a
failing `SubmitReview`, `approvePr` returns success (`none`): the source
discards `SubmitReview`'s return values and its following error check
re-examines the already-nil `CreateReview` error.  The claim that
`approvePr` then returns a non-nil error is refuted by the code. -/
theorem c9_submit_error_swallowed :
    approvePr (Except.ok ([] : List Review)) (Except.ok ⟨"PENDING"⟩)
      (some "submit failed") = none ∧
    approvePr (Except.error "cannot list") (Except.ok (⟨"PENDING"⟩ : Review))
      (none : Option String) = some (.listErr "cannot list") ∧
    approvePr (Except.ok ([] : List Review)) (Except.error "cannot create")
      (none : Option String) = some (.createErr "cannot create") :=
  ⟨rfl, rfl, rfl⟩

end GitGtool
